import Mathlib

/-!
Shallow embedding of the Time-Locked-Vault program (src/src/lib.rs).

Identities (`Pubkey`) are modelled as `Nat`, timestamps (`i64`) as `Int`,
token amounts and ids (`u64`) as `Nat` with the wraparound of the single
checked addition (`deposit_count.checked_add(1)`) made explicit against
`2 ^ 64`.  The 32-byte `tag` is a byte list.  Each handler is the code
after the host-level account checks (signature, program ownership): it
receives the values the Rust code reads from its accounts (caller key,
clock timestamp, source token account mint/balance) and returns
`Except VaultError (Vault × Nat)`, the new in-memory vault together with
the amount moved by the ledger (SPL-token) transfer the handler invokes.
Per the collaborator contract, the transfer inside `process_deposit`
succeeds because the source balance was just checked and the depositor
signed, and the transfers inside the two withdrawal handlers succeed
because they are authorized by the vault's derived authority.

The host's all-or-nothing commit (the Rust code serializes the vault back
to storage only as its final step, and the runtime discards all account
mutations of a failed instruction) is `persistAfter`: on error the durable
vault state is the pre-call state.
-/

/-- The closed error enumeration of the program (`enum VaultError`). -/
inductive VaultError where
  | UnlockTimeNotReached
  | UnauthorizedWithdrawal
  | DepositNotFound
  | InvalidAmount
  | AlreadyWithdrawn
  | InvalidUnlockTime
  | ReentrancyDetected
  | InvalidInstructionData
  | AccountAlreadyInUse
  | InsufficientFunds
  | MathOverflow
deriving Repr, DecidableEq

/-- `struct Deposit` from the source. -/
structure Deposit where
  id : Nat
  depositor : Nat
  token_mint : Nat
  amount : Nat
  unlock_time : Int
  withdrawn : Bool
  tag : List Nat
  created_at : Int
deriving Repr, DecidableEq

/-- `struct Vault` from the source. -/
structure Vault where
  owner : Nat
  deposit_count : Nat
  deposits : List Deposit
  reentrancy_guard : Bool
  emergency_authority : Option Nat
deriving Repr, DecidableEq

/-- `u64::MAX + 1`; `x.checked_add(1)` on a `u64` fails iff `x + 1 ≥ u64Limit`. -/
def u64Limit : Nat := 2 ^ 64

/-- `vault.deposits.iter().position(|d| d.id == deposit_id)`, returning the
first matching deposit together with its position. -/
def findDeposit (deposit_id : Nat) : List Deposit → Option (Nat × Deposit)
  | [] => none
  | d :: ds =>
    if d.id = deposit_id then some (0, d)
    else (findDeposit deposit_id ds).map (fun p => (p.1 + 1, p.2))

/-- `process_create_vault` after the signer and program-ownership checks:
`storage` is the vault account's current content (`none` = empty data). -/
def process_create_vault (caller : Nat) (storage : Option Vault) :
    Except VaultError Vault :=
  match storage with
  | some _ => .error .AccountAlreadyInUse
  | none => .ok
      { owner := caller
        deposit_count := 0
        deposits := []
        reentrancy_guard := false
        emergency_authority := none }

/-- `process_deposit` after the signer and program-ownership checks.
`sourceMint`/`sourceBalance` are the mint and amount of the depositor's
source token account; `now` is `clock.unix_timestamp`. -/
def process_deposit (vault : Vault) (depositor : Nat) (now : Int)
    (sourceMint sourceBalance : Nat) (amount : Nat) (unlock_time : Int)
    (tag : List Nat) : Except VaultError (Vault × Nat) :=
  if vault.reentrancy_guard then .error .ReentrancyDetected
  else
    let vault := { vault with reentrancy_guard := true }
    if amount = 0 then .error .InvalidAmount
    else if unlock_time ≤ now then .error .InvalidUnlockTime
    else if sourceBalance < amount then .error .InsufficientFunds
    else
      let deposit : Deposit :=
        { id := vault.deposit_count
          depositor := depositor
          token_mint := sourceMint
          amount := amount
          unlock_time := unlock_time
          withdrawn := false
          tag := tag
          created_at := now }
      let vault := { vault with deposits := vault.deposits ++ [deposit] }
      if vault.deposit_count + 1 ≥ u64Limit then .error .MathOverflow
      else
        let vault := { vault with deposit_count := vault.deposit_count + 1 }
        -- transfer `amount` from the depositor to the vault, then reset the guard
        .ok ({ vault with reentrancy_guard := false }, amount)

/-- `process_withdraw` after the signer and program-ownership checks.
`caller` is the signing account (`owner_info.key`), `now` is
`clock.unix_timestamp`. -/
def process_withdraw (vault : Vault) (caller : Nat) (now : Int)
    (deposit_id : Nat) : Except VaultError (Vault × Nat) :=
  if vault.reentrancy_guard then .error .ReentrancyDetected
  else
    let vault := { vault with reentrancy_guard := true }
    match findDeposit deposit_id vault.deposits with
    | none => .error .DepositNotFound
    | some (deposit_index, deposit) =>
      if deposit.depositor ≠ caller then .error .UnauthorizedWithdrawal
      else if deposit.withdrawn then .error .AlreadyWithdrawn
      else if deposit.unlock_time > now then .error .UnlockTimeNotReached
      else
        let vault :=
          { vault with deposits :=
              vault.deposits.set deposit_index { deposit with withdrawn := true } }
        -- transfer `deposit.amount` from the vault, signed by its derived
        -- authority, then reset the guard
        .ok ({ vault with reentrancy_guard := false }, deposit.amount)

/-- `process_emergency_withdraw` after the signer and program-ownership
checks.  `caller` is the signing emergency authority account and
`depositor_arg` is the key of the positionally supplied depositor account. -/
def process_emergency_withdraw (vault : Vault) (caller : Nat)
    (depositor_arg : Nat) (deposit_id : Nat) : Except VaultError (Vault × Nat) :=
  if vault.reentrancy_guard then .error .ReentrancyDetected
  else
    let vault := { vault with reentrancy_guard := true }
    if vault.emergency_authority.isNone ∨ vault.emergency_authority ≠ some caller then
      .error .UnauthorizedWithdrawal
    else
      match findDeposit deposit_id vault.deposits with
      | none => .error .DepositNotFound
      | some (deposit_index, deposit) =>
        if deposit.withdrawn then .error .AlreadyWithdrawn
        else if deposit.depositor ≠ depositor_arg then .error .UnauthorizedWithdrawal
        else
          let vault :=
            { vault with deposits :=
                vault.deposits.set deposit_index { deposit with withdrawn := true } }
          -- transfer `deposit.amount` from the vault, signed by its derived
          -- authority, then reset the guard
          .ok ({ vault with reentrancy_guard := false }, deposit.amount)

/-- One mutating operation on an existing vault, carrying the environment
values (caller, clock, source token account) its handler reads. -/
inductive Op where
  | deposit (depositor : Nat) (now : Int) (sourceMint sourceBalance : Nat)
      (amount : Nat) (unlock_time : Int) (tag : List Nat)
  | withdraw (caller : Nat) (now : Int) (deposit_id : Nat)
  | emergencyWithdraw (caller depositor_arg : Nat) (deposit_id : Nat)
deriving Repr, DecidableEq

/-- Dispatch one operation to its handler. -/
def applyOp (v : Vault) : Op → Except VaultError (Vault × Nat)
  | .deposit depositor now sourceMint sourceBalance amount unlock_time tag =>
      process_deposit v depositor now sourceMint sourceBalance amount unlock_time tag
  | .withdraw caller now deposit_id => process_withdraw v caller now deposit_id
  | .emergencyWithdraw caller depositor_arg deposit_id =>
      process_emergency_withdraw v caller depositor_arg deposit_id

/-- The durable vault state after one host invocation: a successful handler
commits its serialized vault, a failed one leaves storage untouched. -/
def persistAfter (v : Vault) (op : Op) : Vault :=
  match applyOp v op with
  | .ok (v2, _) => v2
  | .error _ => v

/-- The durable vault state after a sequence of invocations. -/
def runOps (v : Vault) (ops : List Op) : Vault :=
  ops.foldl persistAfter v

/-- Vault states reachable from a successful CreateVault on an empty
account by any sequence of the mutating operations. -/
def Reachable (v : Vault) : Prop :=
  ∃ creator ops v0, process_create_vault creator none = .ok v0 ∧
    runOps v0 ops = v

theorem findDeposit_some {deposit_id : Nat} {ds : List Deposit} {i : Nat}
    {d : Deposit} (h : findDeposit deposit_id ds = some (i, d)) :
    ds.get? i = some d ∧ d.id = deposit_id := by
  induction ds generalizing i with
  | nil => simp [findDeposit] at h
  | cons d0 tl ih =>
    rw [findDeposit] at h
    by_cases h0 : d0.id = deposit_id
    · rw [if_pos h0] at h
      simp only [Option.some.injEq, Prod.mk.injEq] at h
      obtain ⟨hi, hd⟩ := h
      subst hi; subst hd
      exact ⟨rfl, h0⟩
    · rw [if_neg h0] at h
      cases hf : findDeposit deposit_id tl with
      | none => rw [hf] at h; simp at h
      | some p =>
        obtain ⟨pi, pd⟩ := p
        rw [hf] at h
        simp only [Option.map_some', Option.some.injEq, Prod.mk.injEq] at h
        obtain ⟨hi, hd⟩ := h
        subst hi; subst hd
        obtain ⟨hget, hid⟩ := ih hf
        exact ⟨hget, hid⟩

theorem findDeposit_append_left {deposit_id : Nat} {ds es : List Deposit}
    {i : Nat} {d : Deposit} (h : findDeposit deposit_id ds = some (i, d)) :
    findDeposit deposit_id (ds ++ es) = some (i, d) := by
  induction ds generalizing i with
  | nil => simp [findDeposit] at h
  | cons d0 tl ih =>
    rw [findDeposit] at h
    rw [List.cons_append, findDeposit]
    by_cases h0 : d0.id = deposit_id
    · rw [if_pos h0] at h ⊢; exact h
    · rw [if_neg h0] at h ⊢
      cases hf : findDeposit deposit_id tl with
      | none => rw [hf] at h; simp at h
      | some p =>
        obtain ⟨pi, pd⟩ := p
        rw [hf] at h
        simp only [Option.map_some', Option.some.injEq, Prod.mk.injEq] at h
        obtain ⟨hi, hd⟩ := h
        subst hi; subst hd
        rw [ih hf]; rfl

theorem findDeposit_append_none {deposit_id : Nat} {ds : List Deposit}
    (h : findDeposit deposit_id ds = none) (es : List Deposit) :
    findDeposit deposit_id (ds ++ es) =
      (findDeposit deposit_id es).map (fun p => (p.1 + ds.length, p.2)) := by
  induction ds with
  | nil =>
    cases hes : findDeposit deposit_id es <;> simp [hes]
  | cons d0 tl ih =>
    rw [findDeposit] at h
    rw [List.cons_append, findDeposit]
    by_cases h0 : d0.id = deposit_id
    · rw [if_pos h0] at h; simp at h
    · rw [if_neg h0] at h ⊢
      have htl : findDeposit deposit_id tl = none := by
        cases hh : findDeposit deposit_id tl with
        | none => rfl
        | some p => rw [hh] at h; simp at h
      rw [ih htl]
      cases hes : findDeposit deposit_id es with
      | none => simp
      | some p =>
        simp only [Option.map_some', List.length_cons, Option.some.injEq,
          Prod.mk.injEq]
        exact ⟨by omega, trivial⟩

theorem findDeposit_set {deposit_id : Nat} {ds : List Deposit} {j : Nat}
    {dj d2 : Deposit} (hj : ds.get? j = some dj) (hid : d2.id = dj.id) :
    findDeposit deposit_id (ds.set j d2) =
      (findDeposit deposit_id ds).map
        (fun p => (p.1, if p.1 = j then d2 else p.2)) := by
  induction ds generalizing j with
  | nil => simp at hj
  | cons d0 tl ih =>
    cases j with
    | zero =>
      have hd0 : d0 = dj := by simpa using hj
      subst hd0
      rw [List.set, findDeposit, findDeposit]
      by_cases h0 : d0.id = deposit_id
      · rw [if_pos h0, if_pos (hid.trans h0)]
        simp
      · rw [if_neg h0, if_neg (fun hc => h0 (hid ▸ hc))]
        cases hf : findDeposit deposit_id tl <;> simp [hf]
    | succ j =>
      have hjt : tl.get? j = some dj := by simpa using hj
      rw [List.set, findDeposit, findDeposit]
      by_cases h0 : d0.id = deposit_id
      · rw [if_pos h0, if_pos h0]; simp
      · rw [if_neg h0, if_neg h0, ih hjt]
        cases hf : findDeposit deposit_id tl with
        | none => simp
        | some p =>
          simp only [Option.map_some']
          by_cases hpj : p.1 = j <;> simp [hpj]

theorem findDeposit_set_withdrawn {deposit_id : Nat} {ds : List Deposit}
    {j : Nat} {dj : Deposit} (hj : ds.get? j = some dj) :
    findDeposit deposit_id (ds.set j { dj with withdrawn := true }) =
      (findDeposit deposit_id ds).map
        (fun p =>
          (p.1, if p.1 = j then { dj with withdrawn := true } else p.2)) :=
  findDeposit_set hj rfl

theorem findDeposit_eq_none {deposit_id : Nat} {ds : List Deposit}
    (h : ∀ d ∈ ds, d.id ≠ deposit_id) : findDeposit deposit_id ds = none := by
  induction ds with
  | nil => rfl
  | cons d0 tl ih =>
    rw [findDeposit, if_neg (h d0 (by simp)),
      ih (fun d hd => h d (by simp [hd]))]
    rfl

theorem findDeposit_of_get? {deposit_id : Nat} {ds : List Deposit} {i : Nat}
    {d : Deposit} (hget : ds.get? i = some d) (hid : d.id = deposit_id)
    (hbefore : ∀ j, j < i → ∀ dj, ds.get? j = some dj → dj.id ≠ deposit_id) :
    findDeposit deposit_id ds = some (i, d) := by
  induction ds generalizing i with
  | nil => simp at hget
  | cons d0 tl ih =>
    cases i with
    | zero =>
      have hd0 : d0 = d := by simpa using hget
      subst hd0
      rw [findDeposit, if_pos hid]
    | succ i =>
      have h0 : d0.id ≠ deposit_id := hbefore 0 (Nat.succ_pos i) d0 rfl
      rw [findDeposit, if_neg h0,
        ih (by simpa using hget)
          (fun j hj dj hdj =>
            hbefore (j + 1) (Nat.succ_lt_succ hj) dj (by simpa using hdj))]
      rfl

/-- The deposit record `process_deposit` constructs. -/
def mkDeposit (v : Vault) (depositor : Nat) (now : Int) (sourceMint : Nat)
    (amount : Nat) (unlock_time : Int) (tag : List Nat) : Deposit :=
  { id := v.deposit_count
    depositor := depositor
    token_mint := sourceMint
    amount := amount
    unlock_time := unlock_time
    withdrawn := false
    tag := tag
    created_at := now }

theorem process_deposit_ok {v : Vault} {depositor : Nat} {now : Int}
    {sourceMint sourceBalance amount : Nat} {unlock_time : Int} {tag : List Nat}
    {v2 : Vault} {amt : Nat}
    (h : process_deposit v depositor now sourceMint sourceBalance amount
      unlock_time tag = .ok (v2, amt)) :
    v.reentrancy_guard = false ∧ amount ≠ 0 ∧ now < unlock_time ∧
      amount ≤ sourceBalance ∧ v.deposit_count + 1 < u64Limit ∧
      v2 = { v with
        deposits := v.deposits ++
          [mkDeposit v depositor now sourceMint amount unlock_time tag],
        deposit_count := v.deposit_count + 1,
        reentrancy_guard := false } ∧
      amt = amount := by
  by_cases hg : v.reentrancy_guard = true
  · simp [process_deposit, hg] at h
  by_cases ha : amount = 0
  · simp [process_deposit, hg, ha] at h
  by_cases ht : unlock_time ≤ now
  · simp [process_deposit, hg, ha, ht] at h
  by_cases hb : sourceBalance < amount
  · simp [process_deposit, hg, ha, ht, hb] at h
  by_cases ho : v.deposit_count + 1 ≥ u64Limit
  · simp [process_deposit, hg, ha, ht, hb, ho] at h
  simp [process_deposit, hg, ha, ht, hb, ho] at h
  obtain ⟨hv2, hamt⟩ := h
  exact ⟨by simpa using hg, ha, by omega, by omega, by omega,
    by rw [← hv2]; rfl, hamt.symm⟩

theorem process_deposit_ok_of {v : Vault} {depositor : Nat} {now : Int}
    {sourceMint sourceBalance amount : Nat} {unlock_time : Int} {tag : List Nat}
    (hg : v.reentrancy_guard = false) (ha : amount ≠ 0)
    (ht : now < unlock_time) (hb : amount ≤ sourceBalance)
    (ho : v.deposit_count + 1 < u64Limit) :
    process_deposit v depositor now sourceMint sourceBalance amount
        unlock_time tag =
      .ok ({ v with
        deposits := v.deposits ++
          [mkDeposit v depositor now sourceMint amount unlock_time tag],
        deposit_count := v.deposit_count + 1,
        reentrancy_guard := false }, amount) := by
  have h1 : ¬ (unlock_time ≤ now) := not_le.mpr ht
  have h2 : ¬ (sourceBalance < amount) := not_lt.mpr hb
  have h3 : ¬ (v.deposit_count + 1 ≥ u64Limit) := not_le.mpr ho
  simp [process_deposit, hg, ha, h1, h2, h3, mkDeposit]

theorem process_withdraw_ok {v : Vault} {caller : Nat} {now : Int}
    {deposit_id : Nat} {v2 : Vault} {amt : Nat}
    (h : process_withdraw v caller now deposit_id = .ok (v2, amt)) :
    v.reentrancy_guard = false ∧
      ∃ i d, findDeposit deposit_id v.deposits = some (i, d) ∧
        d.depositor = caller ∧ d.withdrawn = false ∧ d.unlock_time ≤ now ∧
        v2 = { v with
          deposits := v.deposits.set i { d with withdrawn := true },
          reentrancy_guard := false } ∧
        amt = d.amount := by
  by_cases hg : v.reentrancy_guard = true
  · simp [process_withdraw, hg] at h
  cases hf : findDeposit deposit_id v.deposits with
  | none => simp [process_withdraw, hg, hf] at h
  | some p =>
    obtain ⟨i, d⟩ := p
    by_cases hdep : d.depositor = caller
    case neg => simp [process_withdraw, hg, hf, hdep] at h
    by_cases hw : d.withdrawn = true
    · simp [process_withdraw, hg, hf, hdep, hw] at h
    by_cases hu : d.unlock_time > now
    · simp [process_withdraw, hg, hf, hdep, hw, hu] at h
    simp [process_withdraw, hg, hf, hdep, hw, hu] at h
    obtain ⟨hv2, hamt⟩ := h
    exact ⟨by simpa using hg, i, d, rfl, hdep, by simpa using hw, by omega,
      by rw [← hv2]; simp [hdep], hamt.symm⟩

theorem process_withdraw_ok_of {v : Vault} {caller : Nat} {now : Int}
    {deposit_id i : Nat} {d : Deposit}
    (hg : v.reentrancy_guard = false)
    (hf : findDeposit deposit_id v.deposits = some (i, d))
    (hdep : d.depositor = caller) (hw : d.withdrawn = false)
    (hu : d.unlock_time ≤ now) :
    process_withdraw v caller now deposit_id =
      .ok ({ v with
        deposits := v.deposits.set i { d with withdrawn := true },
        reentrancy_guard := false }, d.amount) := by
  have h1 : ¬ (d.unlock_time > now) := not_lt.mpr hu
  simp [process_withdraw, hg, hf, hdep, hw, h1]

theorem process_emergency_withdraw_ok {v : Vault} {caller depositor_arg : Nat}
    {deposit_id : Nat} {v2 : Vault} {amt : Nat}
    (h : process_emergency_withdraw v caller depositor_arg deposit_id =
      .ok (v2, amt)) :
    v.reentrancy_guard = false ∧ v.emergency_authority = some caller ∧
      ∃ i d, findDeposit deposit_id v.deposits = some (i, d) ∧
        d.withdrawn = false ∧ d.depositor = depositor_arg ∧
        v2 = { v with
          deposits := v.deposits.set i { d with withdrawn := true },
          reentrancy_guard := false } ∧
        amt = d.amount := by
  by_cases hg : v.reentrancy_guard = true
  · simp [process_emergency_withdraw, hg] at h
  by_cases hau : v.emergency_authority = some caller
  case neg => simp [process_emergency_withdraw, hg, hau] at h
  cases hf : findDeposit deposit_id v.deposits with
  | none => simp [process_emergency_withdraw, hg, hau, hf] at h
  | some p =>
    obtain ⟨i, d⟩ := p
    by_cases hw : d.withdrawn = true
    · simp [process_emergency_withdraw, hg, hau, hf, hw] at h
    by_cases hdep : d.depositor = depositor_arg
    case neg => simp [process_emergency_withdraw, hg, hau, hf, hw, hdep] at h
    simp [process_emergency_withdraw, hg, hau, hf, hw, hdep] at h
    obtain ⟨hv2, hamt⟩ := h
    exact ⟨by simpa using hg, hau, i, d, rfl, by simpa using hw, hdep,
      by rw [← hv2]; simp [hdep, hau], hamt.symm⟩

theorem process_emergency_withdraw_ok_of {v : Vault}
    {caller depositor_arg deposit_id i : Nat} {d : Deposit}
    (hg : v.reentrancy_guard = false)
    (hau : v.emergency_authority = some caller)
    (hf : findDeposit deposit_id v.deposits = some (i, d))
    (hw : d.withdrawn = false) (hdep : d.depositor = depositor_arg) :
    process_emergency_withdraw v caller depositor_arg deposit_id =
      .ok ({ v with
        deposits := v.deposits.set i { d with withdrawn := true },
        reentrancy_guard := false }, d.amount) := by
  simp [process_emergency_withdraw, hg, hau, hf, hw, hdep]

theorem process_deposit_invalid_amount {v : Vault} {depositor : Nat}
    {now : Int} {sourceMint sourceBalance : Nat} {unlock_time : Int}
    {tag : List Nat} (hg : v.reentrancy_guard = false) :
    process_deposit v depositor now sourceMint sourceBalance 0 unlock_time tag =
      .error .InvalidAmount := by
  simp [process_deposit, hg]

theorem process_deposit_invalid_unlock {v : Vault} {depositor : Nat}
    {now : Int} {sourceMint sourceBalance amount : Nat} {unlock_time : Int}
    {tag : List Nat} (hg : v.reentrancy_guard = false) (ha : amount ≠ 0)
    (ht : unlock_time ≤ now) :
    process_deposit v depositor now sourceMint sourceBalance amount
      unlock_time tag = .error .InvalidUnlockTime := by
  simp [process_deposit, hg, ha, ht]

theorem process_deposit_insufficient {v : Vault} {depositor : Nat}
    {now : Int} {sourceMint sourceBalance amount : Nat} {unlock_time : Int}
    {tag : List Nat} (hg : v.reentrancy_guard = false) (ha : amount ≠ 0)
    (ht : now < unlock_time) (hb : sourceBalance < amount) :
    process_deposit v depositor now sourceMint sourceBalance amount
      unlock_time tag = .error .InsufficientFunds := by
  have h1 : ¬ (unlock_time ≤ now) := not_le.mpr ht
  simp [process_deposit, hg, ha, h1, hb]

theorem process_deposit_overflow {v : Vault} {depositor : Nat}
    {now : Int} {sourceMint sourceBalance amount : Nat} {unlock_time : Int}
    {tag : List Nat} (hg : v.reentrancy_guard = false) (ha : amount ≠ 0)
    (ht : now < unlock_time) (hb : amount ≤ sourceBalance)
    (ho : v.deposit_count + 1 ≥ u64Limit) :
    process_deposit v depositor now sourceMint sourceBalance amount
      unlock_time tag = .error .MathOverflow := by
  have h1 : ¬ (unlock_time ≤ now) := not_le.mpr ht
  have h2 : ¬ (sourceBalance < amount) := not_lt.mpr hb
  simp [process_deposit, hg, ha, h1, h2, ho]

theorem process_withdraw_not_found {v : Vault} {caller : Nat} {now : Int}
    {deposit_id : Nat} (hg : v.reentrancy_guard = false)
    (hf : findDeposit deposit_id v.deposits = none) :
    process_withdraw v caller now deposit_id = .error .DepositNotFound := by
  simp [process_withdraw, hg, hf]

theorem process_withdraw_unauthorized {v : Vault} {caller : Nat} {now : Int}
    {deposit_id i : Nat} {d : Deposit} (hg : v.reentrancy_guard = false)
    (hf : findDeposit deposit_id v.deposits = some (i, d))
    (hdep : d.depositor ≠ caller) :
    process_withdraw v caller now deposit_id =
      .error .UnauthorizedWithdrawal := by
  simp [process_withdraw, hg, hf, hdep]

theorem process_withdraw_already {v : Vault} {caller : Nat} {now : Int}
    {deposit_id i : Nat} {d : Deposit} (hg : v.reentrancy_guard = false)
    (hf : findDeposit deposit_id v.deposits = some (i, d))
    (hdep : d.depositor = caller) (hw : d.withdrawn = true) :
    process_withdraw v caller now deposit_id = .error .AlreadyWithdrawn := by
  simp [process_withdraw, hg, hf, hdep, hw]

theorem process_withdraw_locked {v : Vault} {caller : Nat} {now : Int}
    {deposit_id i : Nat} {d : Deposit} (hg : v.reentrancy_guard = false)
    (hf : findDeposit deposit_id v.deposits = some (i, d))
    (hdep : d.depositor = caller) (hw : d.withdrawn = false)
    (hu : now < d.unlock_time) :
    process_withdraw v caller now deposit_id =
      .error .UnlockTimeNotReached := by
  simp [process_withdraw, hg, hf, hdep, hw, hu]

theorem process_emergency_withdraw_unauthorized {v : Vault}
    {caller depositor_arg deposit_id : Nat} (hg : v.reentrancy_guard = false)
    (hau : v.emergency_authority ≠ some caller) :
    process_emergency_withdraw v caller depositor_arg deposit_id =
      .error .UnauthorizedWithdrawal := by
  simp [process_emergency_withdraw, hg, hau]

theorem process_emergency_withdraw_already {v : Vault}
    {caller depositor_arg deposit_id i : Nat} {d : Deposit}
    (hg : v.reentrancy_guard = false)
    (hau : v.emergency_authority = some caller)
    (hf : findDeposit deposit_id v.deposits = some (i, d))
    (hw : d.withdrawn = true) :
    process_emergency_withdraw v caller depositor_arg deposit_id =
      .error .AlreadyWithdrawn := by
  simp [process_emergency_withdraw, hg, hau, hf, hw]

theorem process_emergency_withdraw_bad_depositor {v : Vault}
    {caller depositor_arg deposit_id i : Nat} {d : Deposit}
    (hg : v.reentrancy_guard = false)
    (hau : v.emergency_authority = some caller)
    (hf : findDeposit deposit_id v.deposits = some (i, d))
    (hw : d.withdrawn = false) (hdep : d.depositor ≠ depositor_arg) :
    process_emergency_withdraw v caller depositor_arg deposit_id =
      .error .UnauthorizedWithdrawal := by
  simp [process_emergency_withdraw, hg, hau, hf, hw, hdep]

theorem persistAfter_of_error {v : Vault} {op : Op} {e : VaultError}
    (h : applyOp v op = .error e) : persistAfter v op = v := by
  rw [persistAfter, h]

theorem persistAfter_of_ok {v v2 : Vault} {op : Op} {amt : Nat}
    (h : applyOp v op = .ok (v2, amt)) : persistAfter v op = v2 := by
  rw [persistAfter, h]

/-- The representation invariant of durable vault states: the counter equals
the list length, the deposit stored at position `i` carries id `i`, the
guard is durably cleared and the emergency authority is absent. -/
def VaultInv (v : Vault) : Prop :=
  v.deposit_count = v.deposits.length ∧
  (∀ i d, v.deposits.get? i = some d → d.id = i) ∧
  v.reentrancy_guard = false ∧
  v.emergency_authority = none

theorem get?_append_singleton {ds : List Deposit} {x : Deposit} {n : Nat} :
    (ds ++ [x]).get? n =
      if n < ds.length then ds.get? n
      else if n = ds.length then some x else none := by
  by_cases h : n < ds.length
  · rw [if_pos h, List.get?_append h]
  · rw [if_neg h]
    by_cases h2 : n = ds.length
    · subst h2
      rw [if_pos rfl, List.get?_eq_getElem?, List.getElem?_append_right le_rfl]
      simp
    · rw [if_neg h2, List.get?_eq_getElem?,
        List.getElem?_append_right (by omega), List.getElem?_eq_none_iff]
      simp only [List.length_singleton]
      omega

theorem VaultInv_persistAfter {v : Vault} (hinv : VaultInv v) (op : Op) :
    VaultInv (persistAfter v op) := by
  obtain ⟨hcount, hids, hguard, hauth⟩ := hinv
  cases happ : applyOp v op with
  | error e => rw [persistAfter_of_error happ]; exact ⟨hcount, hids, hguard, hauth⟩
  | ok p =>
    obtain ⟨v2, amt⟩ := p
    rw [persistAfter_of_ok happ]
    cases op with
    | deposit depositor now sourceMint sourceBalance amount unlock_time tag =>
      obtain ⟨_, _, _, _, _, hv2, _⟩ := process_deposit_ok happ
      subst hv2
      refine ⟨by simp [hcount], ?_, rfl, hauth⟩
      intro i d hget
      rw [get?_append_singleton] at hget
      by_cases h1 : i < v.deposits.length
      · rw [if_pos h1] at hget
        exact hids i d hget
      · rw [if_neg h1] at hget
        by_cases h2 : i = v.deposits.length
        · rw [if_pos h2] at hget
          cases hget
          simpa [mkDeposit] using hcount.trans h2.symm
        · rw [if_neg h2] at hget
          cases hget
    | withdraw caller now deposit_id =>
      obtain ⟨_, i, d, hf, _, _, _, hv2, _⟩ := process_withdraw_ok happ
      subst hv2
      obtain ⟨hget, hid⟩ := findDeposit_some hf
      refine ⟨by simp [hcount], ?_, rfl, hauth⟩
      intro j dj hj
      by_cases hji : j = i
      · subst hji
        obtain ⟨hlt, _⟩ := List.get?_eq_some.mp hget
        rw [List.get?_set_eq_of_lt _ hlt] at hj
        cases hj
        exact hids j d hget
      · rw [List.get?_set_ne _ _ (fun hc => hji hc.symm)] at hj
        exact hids j dj hj
    | emergencyWithdraw caller depositor_arg deposit_id =>
      obtain ⟨_, _, i, d, hf, _, _, hv2, _⟩ := process_emergency_withdraw_ok happ
      subst hv2
      obtain ⟨hget, hid⟩ := findDeposit_some hf
      refine ⟨by simp [hcount], ?_, rfl, hauth⟩
      intro j dj hj
      by_cases hji : j = i
      · subst hji
        obtain ⟨hlt, _⟩ := List.get?_eq_some.mp hget
        rw [List.get?_set_eq_of_lt _ hlt] at hj
        cases hj
        exact hids j d hget
      · rw [List.get?_set_ne _ _ (fun hc => hji hc.symm)] at hj
        exact hids j dj hj

theorem VaultInv_runOps {v : Vault} (hinv : VaultInv v) (ops : List Op) :
    VaultInv (runOps v ops) := by
  induction ops generalizing v with
  | nil => exact hinv
  | cons op ops ih =>
    rw [runOps, List.foldl_cons]
    exact ih (VaultInv_persistAfter hinv op)

theorem VaultInv_of_Reachable {v : Vault} (h : Reachable v) : VaultInv v := by
  obtain ⟨creator, ops, v0, hcreate, hrun⟩ := h
  cases hs : (none : Option Vault) with
  | some _ => cases hs
  | none =>
    rw [process_create_vault] at hcreate
    cases hcreate
    subst hrun
    exact VaultInv_runOps ⟨rfl, fun i d h => by simp at h, rfl, rfl⟩ ops

/-- Does this operation attempt a (plain or emergency) withdrawal of the
deposit with the given id? -/
def isWithdrawalOn (deposit_id : Nat) : Op → Bool
  | .withdraw _ _ i => i == deposit_id
  | .emergencyWithdraw _ _ i => i == deposit_id
  | .deposit .. => false

/-- How many operations of the sequence are withdrawals of the given
deposit id that succeed at their point of execution. -/
def succCount (deposit_id : Nat) : Vault → List Op → Nat
  | _, [] => 0
  | v, op :: ops =>
    (if isWithdrawalOn deposit_id op && (applyOp v op).isOk then 1 else 0) +
      succCount deposit_id (persistAfter v op) ops

/-- The deposit the given id resolves to is already marked withdrawn. -/
def Burned (deposit_id : Nat) (v : Vault) : Prop :=
  ∃ i d, findDeposit deposit_id v.deposits = some (i, d) ∧ d.withdrawn = true

theorem burned_of_withdrawal_ok {deposit_id : Nat} {v : Vault} {op : Op}
    {v2 : Vault} {amt : Nat} (hw : isWithdrawalOn deposit_id op = true)
    (h : applyOp v op = .ok (v2, amt)) : Burned deposit_id v2 := by
  cases op with
  | deposit depositor now sourceMint sourceBalance amount unlock_time tag =>
    cases hw
  | withdraw caller now deposit_id2 =>
    have hid : deposit_id2 = deposit_id := by simpa [isWithdrawalOn] using hw
    subst hid
    obtain ⟨_, i, d, hf, _, _, _, hv2, _⟩ := process_withdraw_ok h
    obtain ⟨hget, _⟩ := findDeposit_some hf
    have hds : v2.deposits = v.deposits.set i { d with withdrawn := true } := by
      rw [hv2]
    refine ⟨i, { d with withdrawn := true }, ?_, rfl⟩
    rw [hds, findDeposit_set_withdrawn hget, hf]
    simp
  | emergencyWithdraw caller depositor_arg deposit_id2 =>
    have hid : deposit_id2 = deposit_id := by simpa [isWithdrawalOn] using hw
    subst hid
    obtain ⟨_, _, i, d, hf, _, _, hv2, _⟩ := process_emergency_withdraw_ok h
    obtain ⟨hget, _⟩ := findDeposit_some hf
    have hds : v2.deposits = v.deposits.set i { d with withdrawn := true } := by
      rw [hv2]
    refine ⟨i, { d with withdrawn := true }, ?_, rfl⟩
    rw [hds, findDeposit_set_withdrawn hget, hf]
    simp

theorem not_ok_of_burned {deposit_id : Nat} {v : Vault} {op : Op}
    (hb : Burned deposit_id v) (hw : isWithdrawalOn deposit_id op = true) :
    (applyOp v op).isOk = false := by
  obtain ⟨i, d, hf, hwd⟩ := hb
  cases happ : applyOp v op with
  | error e => rfl
  | ok p =>
    obtain ⟨v2, amt⟩ := p
    exfalso
    cases op with
    | deposit depositor now sourceMint sourceBalance amount unlock_time tag =>
      cases hw
    | withdraw caller now deposit_id2 =>
      have hid : deposit_id2 = deposit_id := by simpa [isWithdrawalOn] using hw
      subst hid
      obtain ⟨_, i2, d2, hf2, _, hwd2, _, _, _⟩ := process_withdraw_ok happ
      rw [hf] at hf2
      simp only [Option.some.injEq, Prod.mk.injEq] at hf2
      rw [← hf2.2, hwd] at hwd2
      cases hwd2
    | emergencyWithdraw caller depositor_arg deposit_id2 =>
      have hid : deposit_id2 = deposit_id := by simpa [isWithdrawalOn] using hw
      subst hid
      obtain ⟨_, _, i2, d2, hf2, hwd2, _, _, _⟩ := process_emergency_withdraw_ok happ
      rw [hf] at hf2
      simp only [Option.some.injEq, Prod.mk.injEq] at hf2
      rw [← hf2.2, hwd] at hwd2
      cases hwd2

theorem burned_persistAfter {deposit_id : Nat} {v : Vault}
    (hb : Burned deposit_id v) (op : Op) :
    Burned deposit_id (persistAfter v op) := by
  obtain ⟨i, d, hf, hwd⟩ := hb
  cases happ : applyOp v op with
  | error e => rw [persistAfter_of_error happ]; exact ⟨i, d, hf, hwd⟩
  | ok p =>
    obtain ⟨v2, amt⟩ := p
    rw [persistAfter_of_ok happ]
    cases op with
    | deposit depositor now sourceMint sourceBalance amount unlock_time tag =>
      obtain ⟨_, _, _, _, _, hv2, _⟩ := process_deposit_ok happ
      have hds : v2.deposits = v.deposits ++
          [mkDeposit v depositor now sourceMint amount unlock_time tag] := by
        rw [hv2]
      exact ⟨i, d, hds ▸ findDeposit_append_left hf, hwd⟩
    | withdraw caller now deposit_id2 =>
      obtain ⟨_, j, dj, hfj, _, _, _, hv2, _⟩ := process_withdraw_ok happ
      obtain ⟨hgetj, _⟩ := findDeposit_some hfj
      have hds : v2.deposits = v.deposits.set j { dj with withdrawn := true } := by
        rw [hv2]
      refine ⟨i, if i = j then { dj with withdrawn := true } else d, ?_, ?_⟩
      · rw [hds, findDeposit_set_withdrawn hgetj, hf]
        rfl
      · by_cases hij : i = j <;> simp [hij, hwd]
    | emergencyWithdraw caller depositor_arg deposit_id2 =>
      obtain ⟨_, _, j, dj, hfj, _, _, hv2, _⟩ := process_emergency_withdraw_ok happ
      obtain ⟨hgetj, _⟩ := findDeposit_some hfj
      have hds : v2.deposits = v.deposits.set j { dj with withdrawn := true } := by
        rw [hv2]
      refine ⟨i, if i = j then { dj with withdrawn := true } else d, ?_, ?_⟩
      · rw [hds, findDeposit_set_withdrawn hgetj, hf]
        rfl
      · by_cases hij : i = j <;> simp [hij, hwd]

theorem succCount_eq_zero_of_burned {deposit_id : Nat} {v : Vault}
    {ops : List Op} (hb : Burned deposit_id v) :
    succCount deposit_id v ops = 0 := by
  induction ops generalizing v with
  | nil => rfl
  | cons op ops ih =>
    cases hw : isWithdrawalOn deposit_id op with
    | false => simp [succCount, hw, ih (burned_persistAfter hb op)]
    | true =>
      simp [succCount, hw, not_ok_of_burned hb hw,
        ih (burned_persistAfter hb op)]

theorem succCount_le_one (deposit_id : Nat) (v : Vault) (ops : List Op) :
    succCount deposit_id v ops ≤ 1 := by
  induction ops generalizing v with
  | nil => simp [succCount]
  | cons op ops ih =>
    rw [succCount]
    by_cases hc : (isWithdrawalOn deposit_id op && (applyOp v op).isOk) = true
    · rw [if_pos hc]
      have hc2 : isWithdrawalOn deposit_id op = true ∧
          (applyOp v op).isOk = true := by simpa using hc
      obtain ⟨hw, hok⟩ := hc2
      have hb : Burned deposit_id (persistAfter v op) := by
        cases happ : applyOp v op with
        | error e => rw [happ] at hok; cases hok
        | ok p =>
          obtain ⟨v2, amt⟩ := p
          rw [persistAfter_of_ok happ]
          exact burned_of_withdrawal_ok hw happ
      rw [succCount_eq_zero_of_burned hb]
    · rw [if_neg hc]
      simpa using ih (persistAfter v op)

theorem withdrawn_mono {v : Vault} {i : Nat} {d : Deposit}
    (hget : v.deposits.get? i = some d) (hwd : d.withdrawn = true) (op : Op) :
    ∃ d2, (persistAfter v op).deposits.get? i = some d2 ∧
      d2.withdrawn = true ∧ d2.id = d.id := by
  cases happ : applyOp v op with
  | error e => rw [persistAfter_of_error happ]; exact ⟨d, hget, hwd, rfl⟩
  | ok p =>
    obtain ⟨v2, amt⟩ := p
    rw [persistAfter_of_ok happ]
    obtain ⟨hlt, _⟩ := List.get?_eq_some.mp hget
    cases op with
    | deposit depositor now sourceMint sourceBalance amount unlock_time tag =>
      obtain ⟨_, _, _, _, _, hv2, _⟩ := process_deposit_ok happ
      have hds : v2.deposits = v.deposits ++
          [mkDeposit v depositor now sourceMint amount unlock_time tag] := by
        rw [hv2]
      refine ⟨d, ?_, hwd, rfl⟩
      rw [hds, List.get?_append hlt]
      exact hget
    | withdraw caller now deposit_id =>
      obtain ⟨_, j, dj, hfj, _, hwdj, _, hv2, _⟩ := process_withdraw_ok happ
      obtain ⟨hgetj, _⟩ := findDeposit_some hfj
      have hds : v2.deposits = v.deposits.set j { dj with withdrawn := true } := by
        rw [hv2]
      by_cases hij : i = j
      · subst hij
        rw [hget] at hgetj
        simp only [Option.some.injEq] at hgetj
        rw [← hgetj, hwd] at hwdj
        cases hwdj
      · refine ⟨d, ?_, hwd, rfl⟩
        rw [hds, List.get?_set_ne _ _ (fun hc => hij hc.symm)]
        exact hget
    | emergencyWithdraw caller depositor_arg deposit_id =>
      obtain ⟨_, _, j, dj, hfj, hwdj, _, hv2, _⟩ := process_emergency_withdraw_ok happ
      obtain ⟨hgetj, _⟩ := findDeposit_some hfj
      have hds : v2.deposits = v.deposits.set j { dj with withdrawn := true } := by
        rw [hv2]
      by_cases hij : i = j
      · subst hij
        rw [hget] at hgetj
        simp only [Option.some.injEq] at hgetj
        rw [← hgetj, hwd] at hwdj
        cases hwdj
      · refine ⟨d, ?_, hwd, rfl⟩
        rw [hds, List.get?_set_ne _ _ (fun hc => hij hc.symm)]
        exact hget

/-- Is this operation a Deposit instruction? -/
def isDepositOp : Op → Bool
  | .deposit .. => true
  | _ => false

/-- Every operation of the sequence succeeds at its point of execution. -/
def allOk : Vault → List Op → Prop
  | _, [] => True
  | v, op :: ops => (applyOp v op).isOk = true ∧ allOk (persistAfter v op) ops

theorem length_runOps_of_deposits {ops : List Op} {v : Vault}
    (hdep : ∀ op ∈ ops, isDepositOp op = true) (hok : allOk v ops) :
    (runOps v ops).deposits.length = v.deposits.length + ops.length := by
  induction ops generalizing v with
  | nil => simp [runOps]
  | cons op ops ih =>
    obtain ⟨hok1, hokrest⟩ := hok
    rw [runOps, List.foldl_cons]
    have hlen : (persistAfter v op).deposits.length = v.deposits.length + 1 := by
      cases op with
      | deposit depositor now sourceMint sourceBalance amount unlock_time tag =>
        cases happ : applyOp v
            (.deposit depositor now sourceMint sourceBalance amount
              unlock_time tag) with
        | error e => rw [happ] at hok1; cases hok1
        | ok p =>
          obtain ⟨v2, amt⟩ := p
          obtain ⟨_, _, _, _, _, hv2, _⟩ := process_deposit_ok happ
          rw [persistAfter_of_ok happ, hv2]
          simp
      | withdraw caller now deposit_id =>
        cases hdep _ (List.mem_cons_self ..)
      | emergencyWithdraw caller depositor_arg deposit_id =>
        cases hdep _ (List.mem_cons_self ..)
    have hih := ih (fun o ho => hdep o (List.mem_cons_of_mem _ ho)) hokrest
    rw [runOps] at hih
    rw [hih, hlen]
    simp
    omega

theorem map_id_of_inv {v : Vault} (hinv : VaultInv v) :
    v.deposits.map Deposit.id = List.range v.deposits.length := by
  obtain ⟨hcount, hids, _, _⟩ := hinv
  apply List.ext_get?_iff.mpr
  intro n
  rw [List.get?_map]
  by_cases hn : n < v.deposits.length
  · rw [List.get?_range hn]
    cases hq : v.deposits.get? n with
    | none => rw [List.get?_eq_none] at hq; omega
    | some d => simp [hids n d hq]
  · rw [List.get?_eq_none.mpr (by omega),
      List.get?_eq_none.mpr (by simpa using by omega)]
    rfl

theorem findDeposit_eq_get?_of_inv {v : Vault} (hinv : VaultInv v)
    (deposit_id : Nat) :
    findDeposit deposit_id v.deposits =
      (v.deposits.get? deposit_id).map (fun d => (deposit_id, d)) := by
  obtain ⟨hcount, hids, _, _⟩ := hinv
  cases hq : v.deposits.get? deposit_id with
  | some d =>
    have hid : d.id = deposit_id := hids _ _ hq
    rw [findDeposit_of_get? hq hid
      (fun j hj dj hdj => by have := hids j dj hdj; omega)]
    rfl
  | none =>
    rw [List.get?_eq_none] at hq
    rw [findDeposit_eq_none]
    · rfl
    · intro d hd
      obtain ⟨n, hn⟩ := List.mem_iff_get?.mp hd
      have hlt : n < v.deposits.length := by
        by_cases h : n < v.deposits.length
        · exact h
        · rw [List.get?_eq_none.mpr (by omega)] at hn; cases hn
      have := hids n d hn
      omega

/-- An empty vault freshly created by owner 0. -/
def emptyVault : Vault :=
  { owner := 0, deposit_count := 0, deposits := [],
    reentrancy_guard := false, emergency_authority := none }

/-- A sample deposit: 10 tokens of mint 5 from depositor 1, locked until
time 100. -/
def sampleDeposit : Deposit :=
  { id := 0, depositor := 1, token_mint := 5, amount := 10,
    unlock_time := 100, withdrawn := false, tag := [], created_at := 0 }

/-- A vault owned by 0 holding the one sample deposit. -/
def sampleVault : Vault :=
  { owner := 0, deposit_count := 1, deposits := [sampleDeposit],
    reentrancy_guard := false, emergency_authority := none }

/-- The sample deposit after it has been withdrawn. -/
def withdrawnDeposit : Deposit := { sampleDeposit with withdrawn := true }

/-- The sample vault after its deposit has been withdrawn. -/
def withdrawnVault : Vault :=
  { sampleVault with deposits := [withdrawnDeposit] }

/-- The sample vault with an (out-of-band provisioned) emergency
authority 9. -/
def emergencyVault : Vault :=
  { sampleVault with emergency_authority := some 9 }

/-- The withdrawn sample vault with emergency authority 9. -/
def emergencyWithdrawnVault : Vault :=
  { withdrawnVault with emergency_authority := some 9 }

/-- C1: every handler invocation that returns an error leaves the persisted
vault state unchanged (the serialize-back happens only on the success path
and the host discards a failed instruction's mutations); after every
successful handler run the persisted reentrancy guard is false; and in
particular a Deposit call on a guard-false vault that fails with
`InsufficientFunds` — i.e. after the in-memory guard was already flipped to
true — leaves the durable guard value false. -/
theorem claim_C1 (v : Vault) (op : Op) :
    (∀ e, applyOp v op = .error e → persistAfter v op = v) ∧
    (∀ v2 amt, applyOp v op = .ok (v2, amt) → v2.reentrancy_guard = false) ∧
    (∀ depositor now sourceMint sourceBalance amount unlock_time tag,
      v.reentrancy_guard = false →
      process_deposit v depositor now sourceMint sourceBalance amount
        unlock_time tag = .error .InsufficientFunds →
      (persistAfter v (.deposit depositor now sourceMint sourceBalance amount
        unlock_time tag)).reentrancy_guard = false) := by
  refine ⟨fun e he => persistAfter_of_error he, ?_, ?_⟩
  · intro v2 amt h
    cases op with
    | deposit depositor now sourceMint sourceBalance amount unlock_time tag =>
      obtain ⟨_, _, _, _, _, hv2, _⟩ := process_deposit_ok h
      rw [hv2]
    | withdraw caller now deposit_id =>
      obtain ⟨_, i, d, _, _, _, _, hv2, _⟩ := process_withdraw_ok h
      rw [hv2]
    | emergencyWithdraw caller depositor_arg deposit_id =>
      obtain ⟨_, _, i, d, _, _, _, hv2, _⟩ := process_emergency_withdraw_ok h
      rw [hv2]
  · intro depositor now sourceMint sourceBalance amount unlock_time tag hg herr
    have happ : applyOp v (.deposit depositor now sourceMint sourceBalance
        amount unlock_time tag) = .error .InsufficientFunds := herr
    rw [persistAfter_of_error happ]
    exact hg

/-- Witness for C1 at a concrete vault: a Deposit of 10 against a source
balance of 0 fails `InsufficientFunds` and persists nothing, a Deposit of
10 against a balance of 100 succeeds with the guard durably false. -/
theorem claim_C1_witness :
    persistAfter emptyVault (.deposit 1 0 5 0 10 1 []) = emptyVault ∧
    ({ owner := 0, deposit_count := 1,
       deposits := [{ id := 0, depositor := 1, token_mint := 5, amount := 10,
                      unlock_time := 1, withdrawn := false, tag := [],
                      created_at := 0 }],
       reentrancy_guard := false, emergency_authority := none } :
        Vault).reentrancy_guard = false ∧
    (persistAfter emptyVault
      (.deposit 1 0 5 0 10 1 [])).reentrancy_guard = false :=
  ⟨(claim_C1 emptyVault (.deposit 1 0 5 0 10 1 [])).1 .InsufficientFunds rfl,
   (claim_C1 emptyVault (.deposit 1 0 5 100 10 1 [])).2.1 _ 10 rfl,
   (claim_C1 emptyVault (.deposit 1 0 5 0 10 1 [])).2.2 1 0 5 0 10 1 []
     rfl rfl⟩

/-- C2: on a guard-false vault, a Withdraw of an existing, not-yet-withdrawn
deposit by its recorded depositor fails `UnlockTimeNotReached` exactly when
the clock is strictly before the deposit's unlock time, and succeeds —
marking the deposit withdrawn and transferring its amount — exactly when
the clock has reached it. -/
theorem claim_C2 {v : Vault} {caller deposit_id i : Nat} {d : Deposit}
    (hguard : v.reentrancy_guard = false)
    (hf : findDeposit deposit_id v.deposits = some (i, d))
    (hdep : d.depositor = caller) (hw : d.withdrawn = false) (now : Int) :
    (now < d.unlock_time →
      process_withdraw v caller now deposit_id =
        .error .UnlockTimeNotReached) ∧
    (d.unlock_time ≤ now →
      process_withdraw v caller now deposit_id =
        .ok ({ v with
          deposits := v.deposits.set i { d with withdrawn := true },
          reentrancy_guard := false }, d.amount)) :=
  ⟨fun hu => process_withdraw_locked hguard hf hdep hw hu,
   fun hu => process_withdraw_ok_of hguard hf hdep hw hu⟩

/-- Witness for C2: the sample deposit locked until time 100 cannot be
withdrawn at time 50 and is withdrawn (with its 10 tokens transferred) at
time 150. -/
theorem claim_C2_witness :
    process_withdraw sampleVault 1 50 0 = .error .UnlockTimeNotReached ∧
    process_withdraw sampleVault 1 150 0 = .ok (withdrawnVault, 10) :=
  ⟨(@claim_C2 sampleVault 1 0 0 sampleDeposit rfl rfl rfl rfl 50).1
     (by decide),
   (@claim_C2 sampleVault 1 0 0 sampleDeposit rfl rfl rfl rfl 150).2
     (by decide)⟩

/-- C3: a Withdraw of an existing deposit signed by any identity other than
the deposit's recorded depositor fails `UnauthorizedWithdrawal`; in
particular this holds when the caller is the vault's owner, because the
check compares against the deposit's depositor field, not `vault.owner`. -/
theorem claim_C3 {v : Vault} {caller deposit_id i : Nat} {d : Deposit}
    (hguard : v.reentrancy_guard = false)
    (hf : findDeposit deposit_id v.deposits = some (i, d)) (now : Int) :
    (d.depositor ≠ caller →
      process_withdraw v caller now deposit_id =
        .error .UnauthorizedWithdrawal) ∧
    (d.depositor ≠ v.owner →
      process_withdraw v v.owner now deposit_id =
        .error .UnauthorizedWithdrawal) :=
  ⟨fun hdep => process_withdraw_unauthorized hguard hf hdep,
   fun howner => process_withdraw_unauthorized hguard hf howner⟩

/-- Witness for C3: neither the unrelated identity 2 nor the vault owner 0
can withdraw the sample deposit recorded for depositor 1. -/
theorem claim_C3_witness :
    process_withdraw sampleVault 2 150 0 = .error .UnauthorizedWithdrawal ∧
    process_withdraw sampleVault 0 150 0 = .error .UnauthorizedWithdrawal :=
  ⟨(@claim_C3 sampleVault 2 0 0 sampleDeposit rfl rfl 150).1 (by decide),
   (@claim_C3 sampleVault 0 0 0 sampleDeposit rfl rfl 150).2 (by decide)⟩

theorem persistAfter_of_not_ok {v : Vault} {op : Op}
    (h : (applyOp v op).isOk = false) : persistAfter v op = v := by
  cases happ : applyOp v op with
  | error e => exact persistAfter_of_error happ
  | ok p => rw [happ] at h; cases h

/-- C4: a deposit's withdrawn flag never reverts (it survives every
operation), at most one withdrawal (plain or emergency, in any
combination) of a given deposit id ever succeeds across any operation
sequence, and once the deposit is withdrawn every further attempt leaves
the state unchanged and — when it passes the caller checks — fails with
`AlreadyWithdrawn`. -/
theorem claim_C4 (deposit_id : Nat) :
    (∀ v ops, succCount deposit_id v ops ≤ 1) ∧
    (∀ v op i d, v.deposits.get? i = some d → d.withdrawn = true →
      ∃ d2, (persistAfter v op).deposits.get? i = some d2 ∧
        d2.withdrawn = true ∧ d2.id = d.id) ∧
    (∀ v op, isWithdrawalOn deposit_id op = true → Burned deposit_id v →
      persistAfter v op = v) ∧
    (∀ v i d now, v.reentrancy_guard = false →
      findDeposit deposit_id v.deposits = some (i, d) → d.withdrawn = true →
      process_withdraw v d.depositor now deposit_id =
        .error .AlreadyWithdrawn) ∧
    (∀ v i d caller depositor_arg, v.reentrancy_guard = false →
      v.emergency_authority = some caller →
      findDeposit deposit_id v.deposits = some (i, d) → d.withdrawn = true →
      process_emergency_withdraw v caller depositor_arg deposit_id =
        .error .AlreadyWithdrawn) :=
  ⟨succCount_le_one deposit_id,
   fun _ op _ _ hget hwd => withdrawn_mono hget hwd op,
   fun _ _ hw hb => persistAfter_of_not_ok (not_ok_of_burned hb hw),
   fun _ _ _ _ hg hf hwd => process_withdraw_already hg hf rfl hwd,
   fun _ _ _ _ _ hg hau hf hwd =>
     process_emergency_withdraw_already hg hau hf hwd⟩

/-- Witness for C4 on concrete states: two consecutive withdrawals of
deposit 0 succeed at most once; the withdrawn flag survives a further
withdraw attempt; that attempt leaves the state unchanged and fails
`AlreadyWithdrawn` for the depositor and likewise for the emergency path. -/
theorem claim_C4_witness :
    succCount 0 sampleVault [.withdraw 1 150 0, .withdraw 1 200 0] ≤ 1 ∧
    (∃ d2,
      (persistAfter withdrawnVault (.withdraw 1 300 0)).deposits.get? 0 =
        some d2 ∧ d2.withdrawn = true ∧ d2.id = withdrawnDeposit.id) ∧
    persistAfter withdrawnVault (.withdraw 1 300 0) = withdrawnVault ∧
    process_withdraw withdrawnVault 1 300 0 = .error .AlreadyWithdrawn ∧
    process_emergency_withdraw emergencyWithdrawnVault 9 1 0 =
      .error .AlreadyWithdrawn :=
  ⟨(claim_C4 0).1 sampleVault [.withdraw 1 150 0, .withdraw 1 200 0],
   (claim_C4 0).2.1 withdrawnVault (.withdraw 1 300 0) 0 withdrawnDeposit
     rfl rfl,
   (claim_C4 0).2.2.1 withdrawnVault (.withdraw 1 300 0) rfl
     ⟨0, withdrawnDeposit, rfl, rfl⟩,
   (claim_C4 0).2.2.2.1 withdrawnVault 0 withdrawnDeposit 300 rfl rfl rfl,
   (claim_C4 0).2.2.2.2 emergencyWithdrawnVault 0 withdrawnDeposit 9 1
     rfl rfl rfl rfl⟩

/-- The vault state after a second deposit of 20 tokens of mint 7 from
depositor 2 into the sample vault. -/
def depositedDeposit : Deposit := mkDeposit sampleVault 2 10 7 20 40 []

/-- The sample vault after that second deposit. -/
def depositedVault : Vault :=
  { sampleVault with
    deposits := sampleVault.deposits ++ [depositedDeposit],
    deposit_count := 2, reentrancy_guard := false }

/-- An (otherwise empty) vault whose deposit counter sits at u64::MAX. -/
def maxedVault : Vault :=
  { emptyVault with deposit_count := 18446744073709551615 }

/-- The vault record written by a successful CreateVault. -/
def createdVault (creator : Nat) : Vault :=
  { owner := creator, deposit_count := 0, deposits := [],
    reentrancy_guard := false, emergency_authority := none }

/-- C5: starting from a freshly created vault, any all-successful sequence
of Deposit operations assigns ids exactly 0, 1, 2, … in call order; each
single successful Deposit appends a record with id equal to the old
`deposit_count` and increments the counter; a Deposit that would wrap the
u64 counter fails `MathOverflow` and leaves the persisted state
unchanged. -/
theorem claim_C5 :
    (∀ creator ops v0, process_create_vault creator none = .ok v0 →
      (∀ op ∈ ops, isDepositOp op = true) → allOk v0 ops →
      (runOps v0 ops).deposits.map Deposit.id = List.range ops.length) ∧
    (∀ v depositor now sourceMint sourceBalance amount unlock_time tag
        v2 amt,
      process_deposit v depositor now sourceMint sourceBalance amount
        unlock_time tag = .ok (v2, amt) →
      v2.deposits = v.deposits ++
        [mkDeposit v depositor now sourceMint amount unlock_time tag] ∧
      (mkDeposit v depositor now sourceMint amount unlock_time tag).id =
        v.deposit_count ∧
      v2.deposit_count = v.deposit_count + 1) ∧
    (∀ v depositor now sourceMint sourceBalance amount unlock_time tag,
      v.reentrancy_guard = false → amount ≠ 0 → now < unlock_time →
      amount ≤ sourceBalance → v.deposit_count + 1 ≥ u64Limit →
      process_deposit v depositor now sourceMint sourceBalance amount
        unlock_time tag = .error .MathOverflow ∧
      persistAfter v (.deposit depositor now sourceMint sourceBalance
        amount unlock_time tag) = v) := by
  refine ⟨?_, ?_, ?_⟩
  · intro creator ops v0 hcreate hdeposit hok
    have hv0 : createdVault creator = v0 := by
      simpa [process_create_vault, createdVault] using hcreate
    subst hv0
    have hinvf := VaultInv_runOps (v := createdVault creator)
      ⟨rfl, fun i d h => by simp [createdVault] at h, rfl, rfl⟩ ops
    have hmap := map_id_of_inv hinvf
    have hlen := length_runOps_of_deposits hdeposit hok
    rw [hmap, hlen]
    simp [createdVault]
  · intro v depositor now sourceMint sourceBalance amount unlock_time tag
      v2 amt h
    obtain ⟨_, _, _, _, _, hv2, _⟩ := process_deposit_ok h
    exact ⟨by rw [hv2], rfl, by rw [hv2]⟩
  · intro v depositor now sourceMint sourceBalance amount unlock_time tag
      hg ha ht hb ho
    have herr := @process_deposit_overflow v depositor now sourceMint
      sourceBalance amount unlock_time tag hg ha ht hb ho
    exact ⟨herr, persistAfter_of_error herr⟩

/-- Witness for C5: two successful deposits into a fresh vault get ids
0 and 1; a deposit into the sample vault gets id 1 = deposit_count and
bumps the counter to 2; a deposit into a counter-saturated vault fails
`MathOverflow` with nothing persisted. -/
theorem claim_C5_witness :
    (runOps emptyVault [.deposit 1 10 5 100 20 50 [],
      .deposit 1 10 5 100 30 60 []]).deposits.map Deposit.id =
      List.range 2 ∧
    (depositedVault.deposits = sampleVault.deposits ++ [depositedDeposit] ∧
      depositedDeposit.id = sampleVault.deposit_count ∧
      depositedVault.deposit_count = sampleVault.deposit_count + 1) ∧
    (process_deposit maxedVault 1 0 5 100 10 1 [] = .error .MathOverflow ∧
      persistAfter maxedVault (.deposit 1 0 5 100 10 1 []) = maxedVault) :=
  ⟨claim_C5.1 0 [.deposit 1 10 5 100 20 50 [], .deposit 1 10 5 100 30 60 []]
     emptyVault rfl (by decide) ⟨rfl, rfl, trivial⟩,
   claim_C5.2.1 sampleVault 2 10 7 50 20 40 [] depositedVault 20 rfl,
   claim_C5.2.2 maxedVault 1 0 5 100 10 1 [] rfl (by decide) (by decide)
     (by decide) (by decide)⟩

/-- C6: after the reentrancy-guard check passes, the Deposit handler
validates in this exact order — zero amount, non-future unlock time,
insufficient source balance — and fails with the error of the first
violated check even if later checks are also violated. -/
theorem claim_C6 {v : Vault} (depositor : Nat) (now : Int)
    (sourceMint sourceBalance amount : Nat) (unlock_time : Int)
    (tag : List Nat) (hguard : v.reentrancy_guard = false) :
    (amount = 0 →
      process_deposit v depositor now sourceMint sourceBalance amount
        unlock_time tag = .error .InvalidAmount) ∧
    (amount ≠ 0 → unlock_time ≤ now →
      process_deposit v depositor now sourceMint sourceBalance amount
        unlock_time tag = .error .InvalidUnlockTime) ∧
    (amount ≠ 0 → now < unlock_time → sourceBalance < amount →
      process_deposit v depositor now sourceMint sourceBalance amount
        unlock_time tag = .error .InsufficientFunds) := by
  refine ⟨?_, ?_, ?_⟩
  · intro ha
    subst ha
    exact process_deposit_invalid_amount hguard
  · intro ha ht
    exact process_deposit_invalid_unlock hguard ha ht
  · intro ha ht hb
    exact process_deposit_insufficient hguard ha ht hb

/-- Witness for C6: a zero-amount deposit (which also has a stale unlock
time and an empty source) reports `InvalidAmount`; a stale unlock time
(with insufficient funds too) reports `InvalidUnlockTime`; insufficient
funds alone report `InsufficientFunds`. -/
theorem claim_C6_witness :
    process_deposit emptyVault 1 10 5 0 0 5 [] = .error .InvalidAmount ∧
    process_deposit emptyVault 1 10 5 0 7 5 [] = .error .InvalidUnlockTime ∧
    process_deposit emptyVault 1 10 5 3 7 50 [] = .error .InsufficientFunds :=
  ⟨(@claim_C6 emptyVault 1 10 5 0 0 5 [] rfl).1 rfl,
   (@claim_C6 emptyVault 1 10 5 0 7 5 [] rfl).2.1 (by decide) (by decide),
   (@claim_C6 emptyVault 1 10 5 3 7 50 [] rfl).2.2 (by decide) (by decide)
     (by decide)⟩

/-- C7: Emergency-Withdraw succeeds exactly when the guard is false, the
vault's emergency authority is present and equals the signing caller, the
deposit exists and is not withdrawn, and the supplied depositor-identity
argument equals the deposit's recorded depositor; either identity mismatch
yields `UnauthorizedWithdrawal`.  The handler reads no clock at all, so the
success condition involves no unlock-time comparison: the path bypasses
the time lock. -/
theorem claim_C7 (v : Vault) (caller depositor_arg deposit_id : Nat) :
    ((∃ r, process_emergency_withdraw v caller depositor_arg deposit_id =
        .ok r) ↔
      (v.reentrancy_guard = false ∧ v.emergency_authority = some caller ∧
        ∃ i d, findDeposit deposit_id v.deposits = some (i, d) ∧
          d.withdrawn = false ∧ d.depositor = depositor_arg)) ∧
    (v.reentrancy_guard = false → v.emergency_authority ≠ some caller →
      process_emergency_withdraw v caller depositor_arg deposit_id =
        .error .UnauthorizedWithdrawal) ∧
    (∀ i d, v.reentrancy_guard = false →
      v.emergency_authority = some caller →
      findDeposit deposit_id v.deposits = some (i, d) →
      d.withdrawn = false → d.depositor ≠ depositor_arg →
      process_emergency_withdraw v caller depositor_arg deposit_id =
        .error .UnauthorizedWithdrawal) := by
  refine ⟨⟨?_, ?_⟩, ?_, ?_⟩
  · rintro ⟨⟨v2, amt⟩, h⟩
    obtain ⟨hg, hau, i, d, hf, hw, hdep, _, _⟩ :=
      process_emergency_withdraw_ok h
    exact ⟨hg, hau, i, d, hf, hw, hdep⟩
  · rintro ⟨hg, hau, i, d, hf, hw, hdep⟩
    exact ⟨_, process_emergency_withdraw_ok_of hg hau hf hw hdep⟩
  · intro hg hau
    exact process_emergency_withdraw_unauthorized hg hau
  · intro i d hg hau hf hw hdep
    exact process_emergency_withdraw_bad_depositor hg hau hf hw hdep

/-- Witness for C7: with authority 9 provisioned, the emergency withdrawal
of the sample deposit (still locked until time 100) succeeds; without the
authority, or with a mismatched depositor argument, it fails
`UnauthorizedWithdrawal`. -/
theorem claim_C7_witness :
    (∃ r, process_emergency_withdraw emergencyVault 9 1 0 = .ok r) ∧
    process_emergency_withdraw sampleVault 9 1 0 =
      .error .UnauthorizedWithdrawal ∧
    process_emergency_withdraw emergencyVault 9 6 0 =
      .error .UnauthorizedWithdrawal :=
  ⟨(claim_C7 emergencyVault 9 1 0).1.mpr
     ⟨rfl, rfl, 0, sampleDeposit, rfl, rfl, rfl⟩,
   (claim_C7 sampleVault 9 1 0).2.1 rfl (by decide),
   (claim_C7 emergencyVault 9 6 0).2.2 0 sampleDeposit rfl rfl rfl rfl
     (by decide)⟩

/-- C8: in every vault state reachable from CreateVault through the
operations, the emergency authority is absent — CreateVault writes `None`
and no handler ever assigns the field — so every Emergency-Withdraw call
on such a vault fails `UnauthorizedWithdrawal`. -/
theorem claim_C8 {v : Vault} (h : Reachable v) :
    v.emergency_authority = none ∧
    ∀ caller depositor_arg deposit_id,
      process_emergency_withdraw v caller depositor_arg deposit_id =
        .error .UnauthorizedWithdrawal := by
  obtain ⟨_, _, hguard, hauth⟩ := VaultInv_of_Reachable h
  refine ⟨hauth, fun caller depositor_arg deposit_id => ?_⟩
  exact process_emergency_withdraw_unauthorized hguard (by simp [hauth])

/-- The operation sequence used by the reachability witnesses: two
successful deposits into a fresh vault. -/
def ops9 : List Op :=
  [.deposit 1 10 5 100 20 50 [], .deposit 2 11 6 100 30 60 []]

/-- The vault reached by running `ops9` from the empty vault. -/
def reachedVault : Vault := runOps emptyVault ops9

/-- Witness for C8: the concrete reachable two-deposit vault has no
emergency authority and rejects an emergency withdrawal by caller 9. -/
theorem claim_C8_witness :
    reachedVault.emergency_authority = none ∧
    process_emergency_withdraw reachedVault 9 1 0 =
      .error .UnauthorizedWithdrawal :=
  have hreach : Reachable reachedVault := ⟨0, ops9, emptyVault, rfl, rfl⟩
  ⟨(claim_C8 hreach).1, (claim_C8 hreach).2 9 1 0⟩

/-- C9: in every reachable vault state, `deposit_count` equals the length
of the deposit list, the deposit at position `i` has id `i`, and looking a
deposit up by id (the linear scan the handlers use) coincides with
indexing the list at that id. -/
theorem claim_C9 {v : Vault} (h : Reachable v) :
    v.deposit_count = v.deposits.length ∧
    (∀ i d, v.deposits.get? i = some d → d.id = i) ∧
    (∀ deposit_id, findDeposit deposit_id v.deposits =
      (v.deposits.get? deposit_id).map (fun d => (deposit_id, d))) := by
  have hinv := VaultInv_of_Reachable h
  exact ⟨hinv.1, hinv.2.1,
    fun deposit_id => findDeposit_eq_get?_of_inv hinv deposit_id⟩

/-- The second deposit record of `reachedVault`. -/
def secondDeposit : Deposit :=
  { id := 1, depositor := 2, token_mint := 6, amount := 30,
    unlock_time := 60, withdrawn := false, tag := [], created_at := 11 }

/-- Witness for C9 on the concrete reachable two-deposit vault: counter 2
equals the list length, the deposit stored at position 1 has id 1, and
id-lookup of 1 equals indexing at 1. -/
theorem claim_C9_witness :
    reachedVault.deposit_count = reachedVault.deposits.length ∧
    secondDeposit.id = 1 ∧
    findDeposit 1 reachedVault.deposits =
      (reachedVault.deposits.get? 1).map (fun d => (1, d)) :=
  have hreach : Reachable reachedVault := ⟨0, ops9, emptyVault, rfl, rfl⟩
  ⟨(claim_C9 hreach).1, (claim_C9 hreach).2.1 1 secondDeposit rfl,
   (claim_C9 hreach).2.2 1⟩

/-- C10: a successful Withdraw changes exactly one thing in the persisted
vault: the targeted deposit's withdrawn flag flips from false to true.
Owner, counter, emergency authority, list length, every other deposit and
every other field of the targeted deposit are unchanged, and the persisted
reentrancy guard is false (as it already was before the call). -/
theorem claim_C10 {v : Vault} {caller : Nat} {now : Int} {deposit_id : Nat}
    {v2 : Vault} {amt : Nat}
    (h : process_withdraw v caller now deposit_id = .ok (v2, amt)) :
    v2.owner = v.owner ∧ v2.deposit_count = v.deposit_count ∧
    v2.emergency_authority = v.emergency_authority ∧
    v2.reentrancy_guard = false ∧ v.reentrancy_guard = false ∧
    v2.deposits.length = v.deposits.length ∧
    ∃ i d, findDeposit deposit_id v.deposits = some (i, d) ∧
      d.withdrawn = false ∧ amt = d.amount ∧
      v2.deposits.get? i = some { d with withdrawn := true } ∧
      (∀ j, j ≠ i → v2.deposits.get? j = v.deposits.get? j) := by
  obtain ⟨hg, i, d, hf, hdep, hw, hu, hv2, hamt⟩ := process_withdraw_ok h
  obtain ⟨hget, hid⟩ := findDeposit_some hf
  obtain ⟨hlt, _⟩ := List.get?_eq_some.mp hget
  have hds : v2.deposits = v.deposits.set i { d with withdrawn := true } := by
    rw [hv2]
  refine ⟨by rw [hv2], by rw [hv2], by rw [hv2], by rw [hv2], hg,
    by rw [hds]; simp, i, d, hf, hw, hamt, ?_, ?_⟩
  · rw [hds, List.get?_set_eq_of_lt _ hlt]
  · intro j hj
    rw [hds, List.get?_set_ne _ _ (fun hc => hj hc.symm)]

/-- Witness for C10: the successful withdrawal of the sample deposit flips
only its withdrawn flag; all other persisted fields are untouched. -/
theorem claim_C10_witness :
    withdrawnVault.owner = sampleVault.owner ∧
    withdrawnVault.deposit_count = sampleVault.deposit_count ∧
    withdrawnVault.emergency_authority = sampleVault.emergency_authority ∧
    withdrawnVault.reentrancy_guard = false ∧
    sampleVault.reentrancy_guard = false ∧
    withdrawnVault.deposits.length = sampleVault.deposits.length ∧
    ∃ i d, findDeposit 0 sampleVault.deposits = some (i, d) ∧
      d.withdrawn = false ∧ (10 : Nat) = d.amount ∧
      withdrawnVault.deposits.get? i = some { d with withdrawn := true } ∧
      (∀ j, j ≠ i → withdrawnVault.deposits.get? j =
        sampleVault.deposits.get? j) :=
  @claim_C10 sampleVault 1 150 0 withdrawnVault 10 rfl
